import Mathlib

/-!
# Verification of the turbo-tasks incremental computation engine specification

The repository ships only the generated public-symbol index of the
`turbo_tasks` crate (`src/docs/docs.rs/turbo_tasks/sidebar-items.js`); no
implementation source is present.  Following the specification, the core
components (value-cell store, dependency tracker, invalidation engine and
task scheduler) are modelled here as a shallow embedding, faithful to the
specification's words, and the claimed properties are proved against that
model.
-/

namespace TurboTasks

/-- Modelled from the spec: `TaskId` — "identified by a stable `TaskId`".
The implementation behind the exported `TaskId` struct is missing from the
sources, so task identities are modelled as natural numbers. -/
abbrev TaskId := Nat

/-- Modelled from the spec: a cell index, "cell identity (`CellId`) is
assigned deterministically by the order of writes within one execution".
The exported `CellId` struct's implementation is missing, so the per-task
cell identity is modelled as the position of the write inside one
execution. -/
abbrev CellId := Nat

/-- Modelled from the spec: a cell is "identified by `(TaskId, CellId)`". -/
structure CellRef where
  task : TaskId
  cell : CellId
deriving DecidableEq, Repr

/-- Modelled from the source documentation of `Completion`: "Just an empty
type, but it's never equal to itself."  The struct's implementation is
missing from the sources. -/
structure Completion where
deriving DecidableEq, Repr

/-- Equality test of `Completion`: by its documentation no completion value
is ever equal to any completion value, in particular not to itself. -/
def Completion.beqImpl (_ _ : Completion) : Bool := false

instance : BEq Completion := ⟨Completion.beqImpl⟩

/-- Modelled from the spec: cell values are opaque to the core ("the core
treats values as opaque after type-checked read"); we model a small closed
universe that contains the `Completion` values needed for the equality-based
change-detection claims. -/
inductive Value where
  | nat : Nat → Value
  | str : String → Value
  | completion : Completion → Value
deriving DecidableEq, Repr

/-- Equality test used for change detection on cell writes: ordinary values
compare structurally, `Completion` values inherit the never-reflexive
equality of `Completion`. -/
def Value.beqImpl : Value → Value → Bool
  | .nat a, .nat b => a == b
  | .str a, .str b => a == b
  | .completion a, .completion b => a == b
  | _, _ => false

instance : BEq Value := ⟨Value.beqImpl⟩

/-- Modelled from the spec: an execution error message
("*ExecutionError* (the task's body failed)"). -/
abbrev Err := String

section Propagate

variable (tasks : Finset TaskId) (depf : TaskId → Finset TaskId)

/-- Modelled from the spec: the generic worklist traversal of the
dependency graph — "using a worklist to avoid revisiting already-stale
tasks"; "propagation and traversal must be visited-set based, never
recursive-unbounded".  `depf t` lists the direct successors of `t` along
the traversed edge direction (reverse edges for invalidation, forward read
edges for collectible aggregation); nodes outside `tasks` are skipped. -/
def propagate : List TaskId → Finset TaskId → Finset TaskId
  | [], visited => visited
  | t :: rest, visited =>
    if t ∈ visited ∨ t ∉ tasks then
      propagate rest visited
    else
      propagate ((depf t).sort (· ≤ ·) ++ rest) (insert t visited)
termination_by wl visited => ((tasks \ visited).card, wl.length)
decreasing_by
  · exact Prod.Lex.right _ (Nat.lt_succ_self _)
  · apply Prod.Lex.left
    apply Finset.card_lt_card
    rw [not_or, not_not] at *
    refine Finset.ssubset_iff_of_subset (Finset.sdiff_subset_sdiff le_rfl ?_) |>.mpr ?_
    · exact Finset.subset_insert _ _
    · exact ⟨t, by simp_all⟩

/-- One edge step of the traversed relation. -/
def Steps (a b : TaskId) : Prop := b ∈ depf a

/-- Reachability along traversed edges. -/
def Reaches (a b : TaskId) : Prop := Relation.ReflTransGen (Steps depf) a b

/-- The worklist invariant: every traversal successor of a visited node is
either visited or still pending on the worklist. -/
def WorklistInv (wl : List TaskId) (visited : Finset TaskId) : Prop :=
  ∀ a ∈ visited, ∀ b ∈ depf a, b ∈ visited ∨ b ∈ wl

end Propagate

/-- Modelled from the spec: a collectible is "a value emitted (not
returned) by a task during execution", "modeled as a multiset keyed by
type" and "deduplicated by identity"; the exported `CollectiblesFuture`
implementation is missing, so a collectible is modelled as a (trait-type,
identity) pair. -/
structure Collectible where
  ty : Nat
  ident : Nat
deriving DecidableEq, Repr

/-- Modelled from the spec: an `Invalidator` is "a handle capturing 'the
task active when this invalidator was obtained'"; the exported struct's
implementation is missing from the sources. -/
structure Invalidator where
  task : TaskId
deriving DecidableEq, Repr

/-- Modelled from the spec: the shared state of the core — value cell
store, dependency graph, staleness marks, cached errors and emitted
collectibles.  The implementation behind the exported `TurboTasks` struct
and the `backend` module is missing from the sources. -/
structure Engine where
  /-- The set of known tasks. -/
  tasks : Finset TaskId
  /-- The tasks currently marked stale ("done (stale)" / `Pending`). -/
  stale : Finset TaskId
  /-- Per task, the dependency edge set: the cells read during the most
  recent completed execution. -/
  deps : TaskId → Finset CellRef
  /-- Per task, the owned cells in write order; `CellId` is the position
  of the write within one execution. -/
  cells : TaskId → List Value
  /-- Per task, the cached execution error of the most recent execution,
  if it failed. -/
  failed : TaskId → Option Err
  /-- Per task, the collectibles emitted during the most recent
  execution, deduplicated by identity. -/
  emitted : TaskId → Finset Collectible

/-- Modelled from the spec: result of reading a value reference — either a
fresh snapshot, a cached execution error, or a demand that the owning task
be (re-)executed before any value can be observed
("`read(ref) -> ReadRef | triggers execution`"). -/
inductive ReadResult where
  | value : Value → ReadResult
  | errorResult : Err → ReadResult
  | requiresExecution : TaskId → ReadResult
deriving DecidableEq, Repr

/-- Modelled from the spec: "reading a reference first checks freshness;
if fresh, returns a snapshot directly ... If stale or unexecuted, the
store requests execution from the Scheduler"; a cached failure is
"re-surfaced to all readers until the task is invalidated". -/
def readCell (e : Engine) (r : CellRef) : ReadResult :=
  if r.task ∈ e.stale then .requiresExecution r.task
  else
    match e.failed r.task with
    | some msg => .errorResult msg
    | none =>
      match (e.cells r.task)[r.cell]? with
      | some v => .value v
      | none => .requiresExecution r.task

/-- Modelled from the spec: the tasks holding a dependency edge to the
given cell ("every task holding a dependency edge to that cell"). -/
def dependentsOfCell (e : Engine) (c : CellRef) : Finset TaskId :=
  e.tasks.filter (fun u => c ∈ e.deps u)

/-- Modelled from the spec: the tasks holding a dependency edge to some
cell owned by the given task (one step of the reverse-edge walk). -/
def dependentsOfTask (e : Engine) (t : TaskId) : Finset TaskId :=
  e.tasks.filter (fun u => ((e.deps u).filter (fun c => c.task = t)).Nonempty)

/-- Modelled from the spec: `mark_stale(task)`. -/
def markStale (e : Engine) (t : TaskId) : Engine :=
  { e with stale := insert t e.stale }

/-- Modelled from the spec: "invalidating a cell marks its owning task
stale, then performs a reverse-edge walk: every task holding a dependency
edge to that cell is also marked stale, transitively, using a worklist to
avoid revisiting already-stale tasks". -/
def invalidateCell (e : Engine) (c : CellRef) : Engine :=
  { e with
    stale := insert c.task
      (e.stale ∪
        propagate e.tasks (dependentsOfTask e)
          ((dependentsOfCell e c).sort (· ≤ ·)) ∅) }

/-- Modelled from the spec: "calling an invalidator obtained during task
T's execution marks T stale immediately, independent of whether any cell
changed". -/
def fireInvalidator (e : Engine) (inv : Invalidator) : Engine :=
  markStale e inv.task

/-- Modelled from the source documentation of `get_invalidator`: "Get an
[Invalidator] that can be used to invalidate the current [Task] based on
external events."  The function body is missing from the sources. -/
def get_invalidator (current : TaskId) : Invalidator :=
  ⟨current⟩

/-- Modelled from the spec: change detection for one cell position across
a re-execution, comparing the old and new snapshots with the value
equality used by the engine; a cell that is dropped (re-execution wrote
fewer cells) or newly allocated counts as changed. -/
def cellChanged (old new : List Value) (i : Nat) : Bool :=
  match old[i]?, new[i]? with
  | some a, some b => !(a == b)
  | none, none => false
  | _, _ => true

/-- Modelled from the spec: the tasks holding a dependency edge to a cell
of `t` whose value changed (or which was dropped) when `t` re-executed
with the given write list — these become stale ("excess old cells are
dropped" and downstream readers "must themselves become stale"). -/
def readersOfChangedCells (e : Engine) (t : TaskId) (writes : List Value) :
    Finset TaskId :=
  e.tasks.filter (fun u =>
    ((e.deps u).filter
      (fun c => c.task = t ∧ cellChanged (e.cells t) writes c.cell = true)).Nonempty)

/-- Modelled from the spec: completing one execution of task `t` — "the
collected read-set atomically replaces the task's prior edge set", "Writes
during execution replace the prior snapshot entirely", a failed body's
error "is cached like a value", readers of changed or dropped cells are
marked stale, and `t` itself stops being stale ("it stays stale until it
is re-executed to completion"). -/
def completeExecution (e : Engine) (t : TaskId) (reads : Finset CellRef)
    (writes : List Value) (emits : Finset Collectible) (err : Option Err) :
    Engine :=
  { tasks := insert t e.tasks
    stale := (e.stale ∪ readersOfChangedCells e t writes).erase t
    deps := Function.update e.deps t reads
    cells := Function.update e.cells t writes
    failed := Function.update e.failed t err
    emitted := Function.update e.emitted t emits }

/-- Modelled from the spec: `emit_collectible(value)` (exported as `emit`)
— record a collectible emitted by the currently executing task,
deduplicated by identity. -/
def emit (e : Engine) (t : TaskId) (c : Collectible) : Engine :=
  { e with emitted := Function.update e.emitted t (insert c (e.emitted t)) }

/-- Modelled from the spec: the state-changing operations of the public
API ("`Done` transitions back to `Pending` only via invalidation"). -/
inductive Op where
  | markStale (t : TaskId)
  | invalidateCell (c : CellRef)
  | fireInvalidator (inv : Invalidator)
  | emit (t : TaskId) (c : Collectible)
  | completeExecution (t : TaskId) (reads : Finset CellRef)
      (writes : List Value) (emits : Finset Collectible) (err : Option Err)

/-- Apply one operation to the engine state. -/
def applyOp (e : Engine) : Op → Engine
  | .markStale t => markStale e t
  | .invalidateCell c => invalidateCell e c
  | .fireInvalidator inv => fireInvalidator e inv
  | .emit t c => emit e t c
  | .completeExecution t reads writes emits err =>
      completeExecution e t reads writes emits err

/-- Whether an operation is the completion of an execution of task `u`. -/
def Op.completes : Op → TaskId → Prop
  | .completeExecution t _ _ _ _, u => t = u
  | _, _ => False

/-- Modelled from the spec: task `u` transitively depends on cell `c`
under the current (pre-change) dependency graph — `u` holds an edge to `c`
itself, or reaches such a task through the reverse-edge relation ("every
task transitively depending on C (pre-change dependency graph)"). -/
def TransitivelyDepends (e : Engine) (c : CellRef) (u : TaskId) : Prop :=
  ∃ s ∈ dependentsOfCell e c, Reaches (dependentsOfTask e) s u

/-- Modelled from the spec: "cell identity (`CellId`) is assigned
deterministically by the order of writes within one execution" — the
identities of the cells produced by one execution are the write
positions. -/
def cellIdsOf (writes : List Value) : List CellId :=
  List.range writes.length

/-- Modelled from the spec: the tasks whose cells `t` read during its most
recent execution (the forward direction of the dependency graph,
restricted to known tasks). -/
def tasksReadBy (e : Engine) (t : TaskId) : Finset TaskId :=
  ((e.deps t).image CellRef.task) ∩ e.tasks

/-- Modelled from the spec: `collect(task, type) -> multiset` — "the union
of collectibles emitted by T and all tasks transitively read (directly or
indirectly) during T's current execution tree", deduplicated by identity. -/
def collect (e : Engine) (t : TaskId) (ty : Nat) : Finset Collectible :=
  ((propagate e.tasks (tasksReadBy e) [t] ∅).biUnion e.emitted).filter
    (fun c => c.ty = ty)

/-- The worklist traversal of `propagate`, additionally returning the list
of nodes actually expanded, in order; used to state that the visited-set
discipline never revisits a task marked stale earlier in the walk. -/
def propagateTrace (tasks : Finset TaskId) (depf : TaskId → Finset TaskId) :
    List TaskId → Finset TaskId → Finset TaskId × List TaskId
  | [], visited => (visited, [])
  | t :: rest, visited =>
    if t ∈ visited ∨ t ∉ tasks then
      propagateTrace tasks depf rest visited
    else
      let r := propagateTrace tasks depf ((depf t).sort (· ≤ ·) ++ rest)
        (insert t visited)
      (r.1, t :: r.2)
termination_by wl visited => ((tasks \ visited).card, wl.length)
decreasing_by
  · exact Prod.Lex.right _ (Nat.lt_succ_self _)
  · apply Prod.Lex.left
    apply Finset.card_lt_card
    rw [not_or, not_not] at *
    refine Finset.ssubset_iff_of_subset (Finset.sdiff_subset_sdiff le_rfl ?_) |>.mpr ?_
    · exact Finset.subset_insert _ _
    · exact ⟨t, by simp_all⟩

/-- Task `t` lies on a dependency cycle: some successor of `t` reaches `t`
again. -/
def OnCycle (depf : TaskId → Finset TaskId) (t : TaskId) : Prop :=
  ∃ s ∈ depf t, Reaches depf s t

/-- Modelled from the spec: cycle detection over the dependency graph —
the set of tasks found to lie on a cycle by the visited-set traversal
("dependency graph traversal detects a cycle during invalidation
propagation"). -/
def detectCycle (tasks : Finset TaskId) (depf : TaskId → Finset TaskId) :
    Finset TaskId :=
  tasks.filter (fun t => t ∈ propagate tasks depf ((depf t).sort (· ≤ ·)) ∅)

/-- Modelled from the spec: *CycleError* — a cycle found during
invalidation propagation is "reported as a diagnostic rather than silently
looping". -/
inductive Diagnostic where
  | cycleError : TaskId → Diagnostic
deriving DecidableEq, Repr

/-- Invalidation of a cell together with its diagnostics: the state change
of `invalidateCell` plus one `CycleError` report per task found on a
dependency cycle. -/
def invalidateCellWithDiagnostics (e : Engine) (c : CellRef) :
    Engine × List Diagnostic :=
  (invalidateCell e c,
   ((detectCycle e.tasks (dependentsOfTask e)).sort (· ≤ ·)).map .cycleError)

/-- Modelled from the spec: callers waiting on task resolutions are
identified for the purpose of stating the coalescing property. -/
abbrev CallerId := Nat

/-- Modelled from the spec: the per-task execution-coalescing state — "a
future/promise keyed by TaskId, shared by all waiters": either no
execution is in flight, or exactly one is, with the list of callers
waiting on it.  `execCount` counts executions started so far and
`delivered` records the result each caller observed. -/
structure Scheduler (ρ : Type) where
  inFlight : Option (List CallerId)
  execCount : Nat
  delivered : CallerId → Option ρ

/-- Modelled from the spec: one caller requests resolution of the (stale)
task — if no execution is in flight a single execution starts; otherwise
the request "joins the in-flight execution rather than starting a
duplicate". -/
def Scheduler.request {ρ : Type} (s : Scheduler ρ) (c : CallerId) :
    Scheduler ρ :=
  match s.inFlight with
  | none => { s with inFlight := some [c], execCount := s.execCount + 1 }
  | some ws => { s with inFlight := some (c :: ws) }

/-- Modelled from the spec: the single in-flight execution completes with
result `r`, which is delivered to every waiting caller. -/
def Scheduler.complete {ρ : Type} (s : Scheduler ρ) (r : ρ) : Scheduler ρ :=
  match s.inFlight with
  | none => s
  | some ws =>
    { s with inFlight := none
             delivered := fun c => if c ∈ ws then some r else s.delivered c }

/-- A sequence of resolution requests from distinct concurrent callers,
arriving in some order. -/
def Scheduler.requestAll {ρ : Type} (s : Scheduler ρ) (cs : List CallerId) :
    Scheduler ρ :=
  cs.foldl Scheduler.request s

instance (depf : TaskId → Finset TaskId) (a b : TaskId) :
    Decidable (Steps depf a b) :=
  inferInstanceAs (Decidable (b ∈ depf a))

/-- A small concrete engine used as evaluation witness: task 1 reads cell
(0,0), task 2 reads cell (1,0). -/
def sampleEngine : Engine where
  tasks := {0, 1, 2}
  stale := ∅
  deps := fun u => if u = 1 then {⟨0, 0⟩} else if u = 2 then {⟨1, 0⟩} else ∅
  cells := fun t =>
    if t = 0 then [.nat 5] else if t = 1 then [.nat 10] else [.nat 20]
  failed := fun _ => none
  emitted := fun _ => ∅

/-- A variant of `sampleEngine` in which task 0 is already stale. -/
def sampleStaleEngine : Engine :=
  { sampleEngine with stale := {0} }

/-- A variant of `sampleEngine` in which task 0 has emitted a collectible
of type 7. -/
def sampleEmitEngine : Engine :=
  { sampleEngine with emitted := fun t => if t = 0 then {⟨7, 1⟩} else ∅ }

/-- A two-task engine in which task 0 holds a `Completion` value in its
cell 0 and task 1 awaits it. -/
def completionEngine : Engine where
  tasks := {0, 1}
  stale := ∅
  deps := fun u => if u = 1 then {⟨0, 0⟩} else ∅
  cells := fun t => if t = 0 then [.completion ⟨⟩] else []
  failed := fun _ => none
  emitted := fun _ => ∅

/-- A scheduler with no execution in flight, no executions so far and no
results delivered. -/
def idleScheduler (ρ : Type) : Scheduler ρ :=
  ⟨none, 0, fun _ => none⟩

/-- After invalidating cell `c`, task `u` is marked stale and every read
of one of its cells demands re-execution rather than returning a value. -/
def NoStaleRead (e : Engine) (c : CellRef) (u : TaskId) : Prop :=
  u ∈ (invalidateCell e c).stale ∧
  ∀ i, readCell (invalidateCell e c) ⟨u, i⟩ = ReadResult.requiresExecution u

/-- A read only ever returns a value when the owning task is fresh, and
the value is the task's current snapshot at that cell. -/
def ValueReadsAreFresh : Prop :=
  ∀ (e : Engine) (r : CellRef) (v : Value),
    readCell e r = ReadResult.value v →
    r.task ∉ e.stale ∧ (e.cells r.task)[r.cell]? = some v

/-- `N` concurrent requests for the same stale task start exactly one
execution, all join the single in-flight promise, and all observe the same
delivered result. -/
def CoalescedResolution {ρ : Type} (s : Scheduler ρ) (c0 : CallerId)
    (cs : List CallerId) (r : ρ) : Prop :=
  (s.requestAll (c0 :: cs)).execCount = s.execCount + 1 ∧
  (s.requestAll (c0 :: cs)).inFlight = some (cs.reverse ++ [c0]) ∧
  ∀ c ∈ c0 :: cs,
    ((s.requestAll (c0 :: cs)).complete r).delivered c = some r

/-- Completing an execution replaces the task's dependency edge set by
exactly the new read-set, removes edges no longer read, and leaves every
other task's edges untouched. -/
def EdgeSetReplaced (e : Engine) (t : TaskId) (reads : Finset CellRef)
    (writes : List Value) (emits : Finset Collectible) (err : Option Err) :
    Prop :=
  (completeExecution e t reads writes emits err).deps t = reads ∧
  (∀ c, c ∉ reads → c ∉ (completeExecution e t reads writes emits err).deps t) ∧
  (∀ u, u ≠ t → (completeExecution e t reads writes emits err).deps u = e.deps u)

/-- Once a task is stale it stays stale under every operation that is not
the completion of a re-execution of that task. -/
def StaleMonotone : Prop :=
  ∀ (e : Engine) (op : Op) (u : TaskId),
    u ∈ e.stale → ¬ op.completes u → u ∈ (applyOp e op).stale

/-- Completing a re-execution of a task clears its stale mark. -/
def CompletionClearsStale : Prop :=
  ∀ (e : Engine) (u : TaskId) (reads : Finset CellRef) (writes : List Value)
    (emits : Finset Collectible) (err : Option Err),
    u ∉ (applyOp e (.completeExecution u reads writes emits err)).stale

/-- Cell identity follows write order: after completing an execution the
owned cells are exactly the write list in order, reads at those identities
return the written snapshots, readers of dropped excess cells become
stale, and ids for extra writes are freshly allocated. -/
def CellWriteOrder (e : Engine) (t : TaskId) (reads : Finset CellRef)
    (writes : List Value) (emits : Finset Collectible) : Prop :=
  (completeExecution e t reads writes emits none).cells t = writes ∧
  cellIdsOf writes = List.range writes.length ∧
  (∀ i : Fin writes.length,
    readCell (completeExecution e t reads writes emits none) ⟨t, i.1⟩ =
      ReadResult.value (writes.get i)) ∧
  (∀ u, u ∈ e.tasks → u ≠ t → ∀ c ∈ e.deps u, c.task = t →
    writes.length ≤ c.cell → c.cell < (e.cells t).length →
    u ∈ (completeExecution e t reads writes emits none).stale) ∧
  (∀ i, (e.cells t).length ≤ i → i < writes.length →
    i ∈ cellIdsOf writes ∧ i ∉ cellIdsOf (e.cells t))

/-- A failed execution's error is cached and re-surfaced to every reader,
without touching sibling tasks, until the task is invalidated. -/
def ErrorCached (e : Engine) (t : TaskId) (reads : Finset CellRef)
    (writes : List Value) (emits : Finset Collectible) (msg : Err) : Prop :=
  (∀ i, readCell (completeExecution e t reads writes emits (some msg)) ⟨t, i⟩ =
    ReadResult.errorResult msg) ∧
  (∀ u, u ≠ t →
    (completeExecution e t reads writes emits (some msg)).cells u = e.cells u ∧
    (completeExecution e t reads writes emits (some msg)).failed u = e.failed u) ∧
  (∀ i, readCell (markStale (completeExecution e t reads writes emits (some msg)) t)
    ⟨t, i⟩ = ReadResult.requiresExecution t)

/-- The worklist traversal never expands a node twice and performs at most
one expansion per known task, on every graph — cyclic ones included. -/
def NoRevisits : Prop :=
  ∀ (tasks : Finset TaskId) (depf : TaskId → Finset TaskId) (wl : List TaskId),
    (propagateTrace tasks depf wl ∅).2.Nodup ∧
    (propagateTrace tasks depf wl ∅).2.length ≤ tasks.card

/-- Invalidating the same cell a second time marks no further task stale. -/
def InvalidationIdempotent : Prop :=
  ∀ (e : Engine) (c : CellRef),
    (invalidateCell (invalidateCell e c) c).stale = (invalidateCell e c).stale

/-- `collect` returns exactly the collectibles of the requested type
emitted by the task or by some task it transitively reads. -/
def CollectCharacterized (e : Engine) (t : TaskId) (ty : Nat) : Prop :=
  ∀ c, c ∈ collect e t ty ↔
    c.ty = ty ∧ ∃ u, Reaches (tasksReadBy e) t u ∧ c ∈ e.emitted u

/-- Once no transitively read task emits the requested type any more,
`collect` is empty. -/
def CollectEmptyWithoutEmits (e : Engine) (t : TaskId) (ty : Nat) : Prop :=
  (∀ u, Reaches (tasksReadBy e) t u → ∀ c ∈ e.emitted u, c.ty ≠ ty) →
  collect e t ty = ∅

/-- Re-executing a task that rewrites a `Completion` cell always marks the
awaiting task stale, because the change check compares the old and new
completion values with the never-reflexive equality. -/
def CompletionRewriteInvalidates : Prop :=
  ∀ (e : Engine) (t u : TaskId) (reads : Finset CellRef)
    (emits : Finset Collectible) (err : Option Err) (oldc newc : Completion),
    e.cells t = [Value.completion oldc] →
    u ∈ e.tasks → u ≠ t → (⟨t, 0⟩ : CellRef) ∈ e.deps u →
    u ∈ (completeExecution e t reads [Value.completion newc] emits err).stale

section PropagateLemmas

variable (tasks : Finset TaskId) (depf : TaskId → Finset TaskId)

/-- The visited set only grows during propagation. -/
theorem subset_propagate (wl : List TaskId) (visited : Finset TaskId) :
    visited ⊆ propagate tasks depf wl visited := by
  induction wl, visited using propagate.induct tasks depf with
  | case1 visited => rw [propagate]
  | case2 t rest visited hguard ih =>
    rw [propagate, if_pos hguard]; exact ih
  | case3 t rest visited hguard ih =>
    rw [propagate, if_neg hguard]
    exact (Finset.subset_insert _ _).trans ih

/-- Soundness of propagation: every member of the result was either already
visited, or is a member of `tasks` reachable from some worklist entry. -/
theorem mem_propagate_elim (wl : List TaskId) (visited : Finset TaskId)
    (u : TaskId) (hu : u ∈ propagate tasks depf wl visited) :
    u ∈ visited ∨ (u ∈ tasks ∧ ∃ s ∈ wl, Reaches depf s u) := by
  induction wl, visited using propagate.induct tasks depf with
  | case1 visited => rw [propagate] at hu; exact Or.inl hu
  | case2 t rest visited hguard ih =>
    rw [propagate, if_pos hguard] at hu
    rcases ih hu with h | ⟨ht, s, hs, hr⟩
    · exact Or.inl h
    · exact Or.inr ⟨ht, s, List.mem_cons_of_mem _ hs, hr⟩
  | case3 t rest visited hguard ih =>
    rw [not_or, not_not] at hguard
    rw [propagate, if_neg (by rw [not_or, not_not]; exact hguard)] at hu
    rcases ih hu with h | ⟨ht, s, hs, hr⟩
    · rcases Finset.mem_insert.mp h with rfl | h
      · exact Or.inr ⟨hguard.2, u, List.mem_cons_self _ _, Relation.ReflTransGen.refl⟩
      · exact Or.inl h
    · rcases List.mem_append.mp hs with hs | hs
      · exact Or.inr ⟨ht, t, List.mem_cons_self _ _,
          Relation.ReflTransGen.head ((Finset.mem_sort _).mp hs) hr⟩
      · exact Or.inr ⟨ht, s, List.mem_cons_of_mem _ hs, hr⟩

/-- Every worklist entry belonging to `tasks` ends up in the result. -/
theorem mem_propagate_of_mem_worklist (wl : List TaskId) (visited : Finset TaskId)
    (s : TaskId) (hs : s ∈ wl) (hst : s ∈ tasks) :
    s ∈ propagate tasks depf wl visited := by
  induction wl, visited using propagate.induct tasks depf with
  | case1 visited => cases hs
  | case2 t rest visited hguard ih =>
    rw [propagate, if_pos hguard]
    rcases List.mem_cons.mp hs with rfl | hs
    · rcases hguard with h | h
      · exact subset_propagate tasks depf _ _ h
      · exact absurd hst h
    · exact ih hs
  | case3 t rest visited hguard ih =>
    rw [propagate, if_neg hguard]
    rcases List.mem_cons.mp hs with rfl | hs
    · exact subset_propagate tasks depf _ _ (Finset.mem_insert_self _ _)
    · exact ih (List.mem_append_right _ hs)

/-- Under the worklist invariant, the result of propagation is closed under
one traversal step (successors stay inside `tasks` by `hdep`). -/
theorem propagate_closed (hdep : ∀ t, depf t ⊆ tasks)
    (wl : List TaskId) (visited : Finset TaskId)
    (hinv : WorklistInv depf wl visited)
    (a : TaskId) (ha : a ∈ propagate tasks depf wl visited)
    (b : TaskId) (hb : b ∈ depf a) :
    b ∈ propagate tasks depf wl visited := by
  induction wl, visited using propagate.induct tasks depf with
  | case1 visited =>
    rw [propagate] at ha ⊢
    rcases hinv a ha b hb with h | h
    · exact h
    · cases h
  | case2 t rest visited hguard ih =>
    rw [propagate, if_pos hguard] at ha ⊢
    refine ih ?_ ha
    intro x hx y hy
    rcases hinv x hx y hy with h | h
    · exact Or.inl h
    · rcases List.mem_cons.mp h with rfl | h
      · rcases hguard with h | h
        · exact Or.inl h
        · exact absurd (hdep x hy) h
      · exact Or.inr h
  | case3 t rest visited hguard ih =>
    rw [propagate, if_neg hguard] at ha ⊢
    refine ih ?_ ha
    intro x hx y hy
    rcases Finset.mem_insert.mp hx with rfl | hx
    · exact Or.inr (List.mem_append_left _ ((Finset.mem_sort _).mpr hy))
    · rcases hinv x hx y hy with h | h
      · exact Or.inl (Finset.mem_insert_of_mem h)
      · rcases List.mem_cons.mp h with rfl | h
        · exact Or.inl (Finset.mem_insert_self _ _)
        · exact Or.inr (List.mem_append_right _ h)

/-- Completeness of propagation: starting from an empty visited set, every
node reachable from a worklist entry is found. -/
theorem mem_propagate_of_reaches (hdep : ∀ t, depf t ⊆ tasks)
    (wl : List TaskId) (s : TaskId) (hs : s ∈ wl) (hst : s ∈ tasks)
    (u : TaskId) (hr : Reaches depf s u) :
    u ∈ propagate tasks depf wl ∅ := by
  induction hr with
  | refl => exact mem_propagate_of_mem_worklist tasks depf wl ∅ s hs hst
  | tail _ hbc ih =>
    exact propagate_closed tasks depf hdep wl ∅
      (fun a ha => absurd ha (Finset.not_mem_empty a)) _ ih _ hbc

end PropagateLemmas

/-- Requests arriving while an execution is in flight only join the waiter
list: no new execution starts and no result is delivered yet. -/
theorem Scheduler.requestAll_of_inFlight {ρ : Type} (cs : List CallerId)
    (s : Scheduler ρ) (ws : List CallerId) (h : s.inFlight = some ws) :
    (s.requestAll cs).inFlight = some (cs.reverse ++ ws) ∧
    (s.requestAll cs).execCount = s.execCount ∧
    (s.requestAll cs).delivered = s.delivered := by
  induction cs generalizing s ws with
  | nil => simp [requestAll, h]
  | cons c cs ih =>
    have hreq : (s.request c).inFlight = some (c :: ws) := by
      simp [request, h]
    have h2 := ih (s.request c) (c :: ws) hreq
    have hrw : s.requestAll (c :: cs) = (s.request c).requestAll cs := rfl
    have hcount : (s.request c).execCount = s.execCount := by
      simp [request, h]
    have hdel : (s.request c).delivered = s.delivered := by
      simp [request, h]
    refine ⟨?_, ?_, ?_⟩
    · rw [hrw, h2.1, List.reverse_cons, List.append_assoc]
      rfl
    · rw [hrw, h2.2.1, hcount]
    · rw [hrw, h2.2.2, hdel]

/-- Coalescing: `N` concurrent callers resolving the same stale task cause
exactly one execution; all of them join the single in-flight promise and
all observe the same delivered result. -/
theorem Scheduler.coalesce {ρ : Type} (s : Scheduler ρ) (c0 : CallerId)
    (cs : List CallerId) (r : ρ) (h : s.inFlight = none) :
    (s.requestAll (c0 :: cs)).execCount = s.execCount + 1 ∧
    (s.requestAll (c0 :: cs)).inFlight = some (cs.reverse ++ [c0]) ∧
    ∀ c ∈ c0 :: cs,
      ((s.requestAll (c0 :: cs)).complete r).delivered c = some r := by
  have hreq : (s.request c0).inFlight = some [c0] := by
    simp [request, h]
  have hcount : (s.request c0).execCount = s.execCount + 1 := by
    simp [request, h]
  have h2 := Scheduler.requestAll_of_inFlight cs (s.request c0) [c0] hreq
  have hrw : s.requestAll (c0 :: cs) = (s.request c0).requestAll cs := rfl
  refine ⟨by rw [hrw, h2.2.1, hcount], by rw [hrw]; exact h2.1, ?_⟩
  intro c hc
  have hfl := h2.1
  rw [hrw] at *
  unfold Scheduler.complete
  rw [hfl]
  simp only
  have : c ∈ cs.reverse ++ [c0] := by
    rcases List.mem_cons.mp hc with rfl | hc
    · exact List.mem_append_right _ (List.mem_singleton.mpr rfl)
    · exact List.mem_append_left _ (List.mem_reverse.mpr hc)
  simp [this]

/-- The nodes expanded by the worklist traversal are pairwise distinct,
belong to `tasks`, and were not already visited: a task marked stale
earlier in the walk is never revisited. -/
theorem propagateTrace_processed (tasks : Finset TaskId)
    (depf : TaskId → Finset TaskId) (wl : List TaskId)
    (visited : Finset TaskId) :
    (propagateTrace tasks depf wl visited).2.Nodup ∧
    ∀ x ∈ (propagateTrace tasks depf wl visited).2, x ∈ tasks ∧ x ∉ visited := by
  induction wl, visited using propagateTrace.induct tasks depf with
  | case1 visited =>
    rw [propagateTrace]
    exact ⟨List.nodup_nil, by simp⟩
  | case2 t rest visited hguard ih =>
    rw [propagateTrace, if_pos hguard]
    exact ih
  | case3 t rest visited hguard ih =>
    rw [propagateTrace, if_neg hguard]
    rw [not_or, not_not] at hguard
    constructor
    · rw [List.nodup_cons]
      exact ⟨fun hmem => (ih.2 t hmem).2 (Finset.mem_insert_self _ _), ih.1⟩
    · intro x hx
      rcases List.mem_cons.mp hx with rfl | hx
      · exact ⟨hguard.2, hguard.1⟩
      · exact ⟨(ih.2 x hx).1, fun hv => (ih.2 x hx).2 (Finset.mem_insert_of_mem hv)⟩

/-- The traversal performs at most one expansion per known task, on every
graph — cyclic ones included. -/
theorem propagateTrace_length_le (tasks : Finset TaskId)
    (depf : TaskId → Finset TaskId) (wl : List TaskId) :
    (propagateTrace tasks depf wl ∅).2.length ≤ tasks.card := by
  have h := propagateTrace_processed tasks depf wl ∅
  have hsub : (propagateTrace tasks depf wl ∅).2.toFinset ⊆ tasks :=
    fun x hx => (h.2 x (List.mem_toFinset.mp hx)).1
  calc (propagateTrace tasks depf wl ∅).2.length
      = (propagateTrace tasks depf wl ∅).2.toFinset.card :=
        (List.toFinset_card_of_nodup h.1).symm
    _ ≤ tasks.card := Finset.card_le_card hsub

/-- Cycle detection is exact: a task is reported iff it is a known task
lying on a dependency cycle. -/
theorem detectCycle_spec (tasks : Finset TaskId)
    (depf : TaskId → Finset TaskId) (hdep : ∀ a, depf a ⊆ tasks)
    (t : TaskId) :
    t ∈ detectCycle tasks depf ↔ t ∈ tasks ∧ OnCycle depf t := by
  unfold detectCycle OnCycle
  rw [Finset.mem_filter]
  constructor
  · rintro ⟨ht, hp⟩
    rcases mem_propagate_elim tasks depf _ ∅ t hp with h | ⟨_, s, hs, hr⟩
    · exact absurd h (Finset.not_mem_empty t)
    · exact ⟨ht, s, (Finset.mem_sort _).mp hs, hr⟩
  · rintro ⟨ht, s, hs, hr⟩
    exact ⟨ht, mem_propagate_of_reaches tasks depf hdep _ s
      ((Finset.mem_sort _).mpr hs) (hdep t hs) t hr⟩

/-- Invalidating the same cell twice marks exactly the same tasks stale as
invalidating it once. -/
theorem invalidateCell_stale_idem (e : Engine) (c : CellRef) :
    (invalidateCell (invalidateCell e c) c).stale = (invalidateCell e c).stale := by
  simp only [invalidateCell, dependentsOfTask, dependentsOfCell]
  ext x
  simp only [Finset.mem_insert, Finset.mem_union]
  tauto

/-- C1: For every cell `c` and every task `u` transitively depending on
`c` under the pre-change dependency graph, once `c` is invalidated `u` is
marked stale and every read of a cell of `u` demands re-execution of `u`
instead of returning a value — and in general a read returns a value only
from a fresh task's current snapshot, so no stale value is ever
observed. -/
theorem stale_read_never_observed (e : Engine) (c : CellRef) (u : TaskId)
    (h : TransitivelyDepends e c u) :
    NoStaleRead e c u ∧ ValueReadsAreFresh := by
  constructor
  · obtain ⟨s, hs, hr⟩ := h
    have hst : s ∈ e.tasks := (Finset.mem_filter.mp hs).1
    have hmem : u ∈ propagate e.tasks (dependentsOfTask e)
        ((dependentsOfCell e c).sort (· ≤ ·)) ∅ :=
      mem_propagate_of_reaches _ _ (fun t => Finset.filter_subset _ _) _ s
        ((Finset.mem_sort _).mpr hs) hst u hr
    have hstale : u ∈ (invalidateCell e c).stale :=
      Finset.mem_insert_of_mem (Finset.mem_union_right _ hmem)
    exact ⟨hstale, fun i => by simp [readCell, hstale]⟩
  · intro e' r v hv
    unfold readCell at hv
    by_cases hst : r.task ∈ e'.stale
    · rw [if_pos hst] at hv; cases hv
    · rw [if_neg hst] at hv
      refine ⟨hst, ?_⟩
      cases hf : e'.failed r.task with
      | some msg => rw [hf] at hv; cases hv
      | none =>
        rw [hf] at hv
        cases hc : (e'.cells r.task)[r.cell]? with
        | some w =>
          rw [hc] at hv
          injection hv with hw
          rw [← hw]
        | none => rw [hc] at hv; cases hv

/-- Witness for C1 on the sample engine: task 2 transitively depends on
cell (0,0) through task 1, so invalidating that cell forces task 2 to
re-execute before any of its cells can be read. -/
theorem stale_read_never_observed_witness :
    TransitivelyDepends sampleEngine ⟨0, 0⟩ 2 ∧
    (NoStaleRead sampleEngine ⟨0, 0⟩ 2 ∧ ValueReadsAreFresh) :=
  have h : TransitivelyDepends sampleEngine ⟨0, 0⟩ 2 :=
    ⟨1, by decide, Relation.ReflTransGen.single (by decide)⟩
  ⟨h, stale_read_never_observed sampleEngine ⟨0, 0⟩ 2 h⟩

/-- C2: When `N` callers concurrently resolve the same stale task, exactly
one execution starts, the re-entrant requests join the single in-flight
promise, and every caller observes the same delivered result (value or
error). -/
theorem at_most_one_execution {ρ : Type} (s : Scheduler ρ) (c0 : CallerId)
    (cs : List CallerId) (r : ρ) (h : s.inFlight = none) :
    CoalescedResolution s c0 cs r :=
  Scheduler.coalesce s c0 cs r h

/-- Witness for C2: three callers of an idle scheduler cause exactly one
execution and all receive the value 7. -/
theorem at_most_one_execution_witness :
    (idleScheduler Value).inFlight = none ∧
    CoalescedResolution (idleScheduler Value) 0 [1, 2] (Value.nat 7) :=
  ⟨rfl, at_most_one_execution (idleScheduler Value) 0 [1, 2] (Value.nat 7) rfl⟩

/-- C3: After every completed execution, the recorded dependency edge set
of the task equals exactly the read-set of that execution: the new
read-set replaces the prior edges, edges to cells no longer read are gone,
and no other task's edges are affected. -/
theorem dependency_edges_replaced (e : Engine) (t : TaskId)
    (reads : Finset CellRef) (writes : List Value)
    (emits : Finset Collectible) (err : Option Err) :
    EdgeSetReplaced e t reads writes emits err := by
  refine ⟨?_, ?_, ?_⟩
  · simp [EdgeSetReplaced, completeExecution]
  · intro c hc
    simpa [completeExecution] using hc
  · intro u hu
    simp [completeExecution, Function.update_noteq hu]

/-- Witness for C3: replacing task 1's read-set by {(2,0)} removes the old
edge to (0,0) on the sample engine. -/
theorem dependency_edges_replaced_witness :
    EdgeSetReplaced sampleEngine 1 {⟨2, 0⟩} [Value.nat 11] ∅ none :=
  dependency_edges_replaced sampleEngine 1 {⟨2, 0⟩} [Value.nat 11] ∅ none

/-- C4: Staleness is monotone: a stale task stays stale under every
operation except the completion of its own re-execution, and completing
that re-execution is exactly what clears the mark. -/
theorem staleness_monotone : StaleMonotone ∧ CompletionClearsStale := by
  constructor
  · intro e op u h hnc
    cases op with
    | markStale t => exact Finset.mem_insert_of_mem h
    | invalidateCell c =>
      exact Finset.mem_insert_of_mem (Finset.mem_union_left _ h)
    | fireInvalidator inv => exact Finset.mem_insert_of_mem h
    | emit t c => exact h
    | completeExecution t reads writes emits err =>
      have hne : u ≠ t := fun hh => hnc (by simp [Op.completes, hh])
      exact Finset.mem_erase.mpr ⟨hne, Finset.mem_union_left _ h⟩
  · intro e u reads writes emits err
    exact Finset.not_mem_erase _ _

/-- Witness for C4: on the sample engine with task 0 stale, marking task 1
stale keeps task 0 stale, and completing a re-execution of task 0 clears
its mark. -/
theorem staleness_monotone_witness :
    (0 : TaskId) ∈ (applyOp sampleStaleEngine (Op.markStale 1)).stale ∧
    (0 : TaskId) ∉
      (applyOp sampleStaleEngine (Op.completeExecution 0 ∅ [] ∅ none)).stale :=
  ⟨staleness_monotone.1 sampleStaleEngine (Op.markStale 1) 0 (by decide)
      (fun hf => hf),
   staleness_monotone.2 sampleStaleEngine 0 ∅ [] ∅ none⟩

/-- C5: Cell identities are assigned by write order: after an execution
the owned cells are exactly the write list in order and reading identity
`i` returns the `i`-th write; if the re-execution wrote fewer cells, every
downstream reader of a dropped cell becomes stale (no dangling fresh read
of a removed cell); if it wrote more, the extra identities are freshly
allocated. -/
theorem cell_identity_write_order (e : Engine) (t : TaskId)
    (reads : Finset CellRef) (writes : List Value)
    (emits : Finset Collectible) :
    CellWriteOrder e t reads writes emits := by
  refine ⟨?_, rfl, ?_, ?_, ?_⟩
  · simp [completeExecution]
  · intro i
    simp [readCell, completeExecution, List.getElem?_eq_getElem i.2,
      List.get_eq_getElem]
  · intro u hu hne c hcdep hct hge hlt
    have hchanged : cellChanged (e.cells t) writes c.cell = true := by
      unfold cellChanged
      rw [List.getElem?_eq_getElem hlt, List.getElem?_eq_none hge]
    refine Finset.mem_erase.mpr ⟨hne, Finset.mem_union_right _ ?_⟩
    exact Finset.mem_filter.mpr
      ⟨hu, ⟨c, Finset.mem_filter.mpr ⟨hcdep, hct, hchanged⟩⟩⟩
  · intro i h1 h2
    exact ⟨List.mem_range.mpr h2, fun hmem =>
      absurd (List.mem_range.mp hmem) (not_lt.mpr h1)⟩

/-- Witness for C5: re-executing task 0 of the sample engine with an empty
write list drops its old cell 0 and marks its reader, task 1, stale. -/
theorem cell_identity_write_order_witness :
    CellWriteOrder sampleEngine 0 ∅ [] ∅ :=
  cell_identity_write_order sampleEngine 0 ∅ [] ∅

/-- C6: A failed execution's error is cached like a value and re-surfaced
unchanged to every reader of the task until it is invalidated and
re-executed; sibling tasks keep their cells and cached results; and
concurrent resolvers of the failed task all receive the same error from a
single execution. -/
theorem execution_error_cached :
    (∀ (e : Engine) (t : TaskId) (reads : Finset CellRef)
      (writes : List Value) (emits : Finset Collectible) (msg : Err),
        ErrorCached e t reads writes emits msg) ∧
    (∀ (s : Scheduler ReadResult) (c0 : CallerId) (cs : List CallerId)
      (msg : Err), s.inFlight = none →
        CoalescedResolution s c0 cs (ReadResult.errorResult msg)) := by
  constructor
  · intro e t reads writes emits msg
    refine ⟨?_, ?_, ?_⟩
    · intro i
      simp [readCell, completeExecution]
    · intro u hu
      constructor <;> simp [completeExecution, Function.update_noteq hu]
    · intro i
      simp [readCell, markStale]
  · intro s c0 cs msg h
    exact Scheduler.coalesce s c0 cs _ h

/-- Witness for C6: caching the error "div by zero" on task 1 of the
sample engine, and one caller pair receiving that same cached error from a
single execution. -/
theorem execution_error_cached_witness :
    ErrorCached sampleEngine 1 ∅ [] ∅ "div by zero" ∧
    ((idleScheduler ReadResult).inFlight = none ∧
      CoalescedResolution (idleScheduler ReadResult) 0 [1]
        (ReadResult.errorResult "div by zero")) :=
  ⟨execution_error_cached.1 sampleEngine 1 ∅ [] ∅ "div by zero",
   rfl, execution_error_cached.2 (idleScheduler ReadResult) 0 [1]
     "div by zero" rfl⟩

/-- C7: Firing an invalidator obtained during task `x`'s execution marks
`x` stale regardless of its dependency edges and of whether any cell it
read changed, so the next resolution request for any cell owned by `x`
demands a re-execution of `x`. -/
theorem invalidator_marks_stale_regardless_of_edges (e : Engine)
    (x : TaskId) (i : CellId) :
    x ∈ (fireInvalidator e (get_invalidator x)).stale ∧
    readCell (fireInvalidator e (get_invalidator x)) ⟨x, i⟩ =
      ReadResult.requiresExecution x := by
  constructor
  · exact Finset.mem_insert_self _ _
  · simp [readCell, fireInvalidator, get_invalidator, markStale]

/-- C8: Invalidation propagation is cycle-safe on every dependency graph:
the worklist never expands a task twice and does bounded work even on
cyclic graphs, invalidating the same cell again is idempotent, and a task
is reported with a `CycleError` diagnostic exactly when it lies on a
dependency cycle. -/
theorem invalidation_cycle_safe :
    NoRevisits ∧ InvalidationIdempotent ∧
    (∀ (e : Engine) (c : CellRef) (t : TaskId),
      Diagnostic.cycleError t ∈ (invalidateCellWithDiagnostics e c).2 ↔
        t ∈ e.tasks ∧ OnCycle (dependentsOfTask e) t) := by
  refine ⟨?_, ?_, ?_⟩
  · intro tasks depf wl
    exact ⟨(propagateTrace_processed tasks depf wl ∅).1,
      propagateTrace_length_le tasks depf wl⟩
  · intro e c
    exact invalidateCell_stale_idem e c
  · intro e c t
    unfold invalidateCellWithDiagnostics
    simp only [List.mem_map, Finset.mem_sort]
    constructor
    · rintro ⟨a, ha, heq⟩
      injection heq with hh
      subst hh
      exact (detectCycle_spec _ _ (fun x => Finset.filter_subset _ _) a).mp ha
    · intro h
      exact ⟨t, (detectCycle_spec _ _ (fun x => Finset.filter_subset _ _) t).mpr h,
        rfl⟩

/-- C9: `collect` returns exactly the collectibles of the requested type
emitted by the task and every task transitively read during its current
execution tree, deduplicated by identity; once no contributing task emits
the type any more, `collect` is empty. -/
theorem collect_aggregates (e : Engine) (t : TaskId) (ty : Nat)
    (h : t ∈ e.tasks) :
    CollectCharacterized e t ty ∧ CollectEmptyWithoutEmits e t ty := by
  have hdep : ∀ a, tasksReadBy e a ⊆ e.tasks := fun a => Finset.inter_subset_right
  have hchar : CollectCharacterized e t ty := by
    intro c
    unfold collect
    rw [Finset.mem_filter, Finset.mem_biUnion]
    constructor
    · rintro ⟨⟨u, hu, hc⟩, hty⟩
      rcases mem_propagate_elim _ _ _ _ u hu with hv | ⟨_, s, hs, hr⟩
      · exact absurd hv (Finset.not_mem_empty u)
      · rcases List.mem_singleton.mp hs with rfl
        exact ⟨hty, u, hr, hc⟩
    · rintro ⟨hty, u, hr, hc⟩
      exact ⟨⟨u, mem_propagate_of_reaches _ _ hdep [t] t
        (List.mem_singleton_self t) h u hr, hc⟩, hty⟩
  refine ⟨hchar, fun hno => ?_⟩
  rw [Finset.eq_empty_iff_forall_not_mem]
  intro c hc
  rcases (hchar c).mp hc with ⟨hty, u, hr, hcu⟩
  exact hno u hr c hcu hty

/-- Witness for C9: collecting type 7 from task 1, which transitively
reads task 0's emitted collectible, on the sample emitting engine. -/
theorem collect_aggregates_witness :
    (1 : TaskId) ∈ sampleEmitEngine.tasks ∧
    (CollectCharacterized sampleEmitEngine 1 7 ∧
      CollectEmptyWithoutEmits sampleEmitEngine 1 7) :=
  ⟨by decide, collect_aggregates sampleEmitEngine 1 7 (by decide)⟩

/-- C10: A `Completion` value is never equal to itself (nor to any other
completion) under the engine's value equality, with the consequence that a
task awaiting a completion cell is invalidated every time the referenced
task re-executes, even when it wrote the "same" empty completion value. -/
theorem completion_never_equal :
    (∀ c : Completion, (c == c) = false) ∧
    (∀ a b : Completion, (a == b) = false) ∧
    CompletionRewriteInvalidates := by
  refine ⟨fun c => rfl, fun a b => rfl, ?_⟩
  intro e t u reads emits err oldc newc hcell hu hne hdep
  refine Finset.mem_erase.mpr ⟨hne, Finset.mem_union_right _ ?_⟩
  refine Finset.mem_filter.mpr
    ⟨hu, ⟨⟨t, 0⟩, Finset.mem_filter.mpr ⟨hdep, rfl, ?_⟩⟩⟩
  unfold cellChanged
  rw [hcell]
  rfl

/-- Witness for C10: task 0 of the completion engine re-executes and
rewrites the same empty completion; its awaiting reader, task 1, is
invalidated nonetheless. -/
theorem completion_never_equal_witness :
    (completionEngine.cells 0 = [Value.completion ⟨⟩] ∧
      (1 : TaskId) ∈ completionEngine.tasks ∧ (1 : TaskId) ≠ 0 ∧
      (⟨0, 0⟩ : CellRef) ∈ completionEngine.deps 1) ∧
    (1 : TaskId) ∈
      (completeExecution completionEngine 0 ∅ [Value.completion ⟨⟩] ∅ none).stale :=
  ⟨⟨rfl, by decide, by decide, by decide⟩,
   completion_never_equal.2.2 completionEngine 0 1 ∅ ∅ none ⟨⟩ ⟨⟩ rfl
     (by decide) (by decide) (by decide)⟩

end TurboTasks
